import Mathlib

/-
Verification of the batch-processing layer in src/index.js (S3renity).

The JavaScript source is shallowly embedded:
  - object bodies that get split into records are List Char (JS strings),
    whole-object bodies are a type parameter where the code never inspects them;
  - the store transport (getObject, putObject, copyObject, deleteObjects,
    listObjects pages) is abstracted as oracle functions / emitted events;
  - promise chains are value-level: a chain that rejects is Except.error,
    the sequential continuation-passing loops become structural recursion;
  - strict-mode JavaScript errors (assignment to an undeclared identifier
    throws a ReferenceError) are embedded as explicit error results.
-/

namespace S3L

/-- JavaScript String.prototype.split with a non-empty separator, on char
lists, driven by fuel (the fuel is always at least the length of the
remaining input, so the fuel branch is never the one that answers). -/
def jsSplitF (sep : List Char) : Nat → List Char → List (List Char)
  | 0, _ => [[]]
  | fuel + 1, s =>
    if sep ≠ [] ∧ sep.isPrefixOf s ∧ s ≠ [] then
      [] :: jsSplitF sep fuel (s.drop sep.length)
    else
      match s with
      | [] => [[]]
      | c :: rest =>
        match jsSplitF sep fuel rest with
        | [] => [[c]]
        | t :: ts => (c :: t) :: ts

/-- JS body.split(delimiter): scan left to right, cutting at each occurrence
of the delimiter.  body.split(d) on the empty string gives one empty token,
exactly as in JavaScript. -/
def jsSplit (sep s : List Char) : List (List Char) :=
  jsSplitF sep s.length s

/-- JS Array.prototype.join with an explicit separator: tokens interleaved
with the separator, empty array gives the empty string. -/
def joinWith (sep : List Char) : List (List Char) → List Char
  | [] => []
  | [t] => t
  | t :: t2 :: ts => t ++ sep ++ joinWith sep (t2 :: ts)

theorem jsSplitF_ne_nil (sep : List Char) (fuel : Nat) (s : List Char) :
    jsSplitF sep fuel s ≠ [] := by
  cases fuel with
  | zero => simp [jsSplitF]
  | succ fuel =>
    simp only [jsSplitF]
    split
    · simp
    · split
      · simp
      · rename_i c rest hcond
        cases h : jsSplitF sep fuel rest <;> simp

theorem jsSplit_ne_nil (sep s : List Char) : jsSplit sep s ≠ [] :=
  jsSplitF_ne_nil sep s.length s

theorem joinWith_cons_head (sep : List Char) (c : Char) (t : List Char)
    (ts : List (List Char)) :
    joinWith sep ((c :: t) :: ts) = c :: joinWith sep (t :: ts) := by
  cases ts <;> simp [joinWith]

theorem joinWith_jsSplitF (sep : List Char) (fuel : Nat) (s : List Char)
    (hf : s.length ≤ fuel) : joinWith sep (jsSplitF sep fuel s) = s := by
  induction fuel generalizing s with
  | zero =>
    have : s = [] := List.length_eq_zero.mp (Nat.le_zero.mp hf)
    subst this
    simp [jsSplitF, joinWith]
  | succ fuel ih =>
    simp only [jsSplitF]
    split
    · rename_i h
      obtain ⟨hsep, hpre, hs⟩ := h
      obtain ⟨t, rfl⟩ := List.isPrefixOf_iff_prefix.mp hpre
      have hlsep : 0 < sep.length := List.length_pos.mpr hsep
      have hdrop : (sep ++ t).drop sep.length = t := List.drop_left sep t
      have hlen : t.length ≤ fuel := by
        have := List.length_append sep t
        omega
      rw [hdrop]
      cases hsp : jsSplitF sep fuel t with
      | nil => exact absurd hsp (jsSplitF_ne_nil _ _ _)
      | cons a as =>
        have hj := ih t hlen
        rw [hsp] at hj
        simp only [joinWith]
        simp [hj]
    · split
      · simp [joinWith]
      · rename_i c rest hcond
        have hlen : rest.length ≤ fuel := by
          simp only [List.length_cons] at hf
          omega
        have hj := ih rest hlen
        cases hsp : jsSplitF sep fuel rest with
        | nil => exact absurd hsp (jsSplitF_ne_nil _ _ _)
        | cons a as =>
          rw [hsp] at hj
          rw [joinWith_cons_head, hj]

/-- Re-joining the split of a body with the same separator reconstructs the
body: the split is the ordered sequence of substrings between occurrences of
the separator. -/
theorem joinWith_jsSplit (sep s : List Char) : joinWith sep (jsSplit sep s) = s :=
  joinWith_jsSplitF sep s.length s (Nat.le_refl _)

/-- Errors a JavaScript execution can surface: a strict-mode ReferenceError
(assignment to the named undeclared identifier) or a TypeError with its
message.  The file src/index.js is strict-mode code (line 9). -/
inductive JsErr where
  | refErr (ident : String)
  | typeErr (msg : String)
deriving DecidableEq

/-- Store-transport events emitted by a batch operation, in order.  Bodies
have type beta (List Char where the code splits them, opaque otherwise). -/
inductive Ev (beta : Type) where
  | get (key : String)
  | put (key : String) (body : beta)
  | copyEv (src : String) (dst : String)
  | delMany (keys : List String)
deriving DecidableEq

/-- Number of put events in a trace. -/
def putCount {beta : Type} (tr : List (Ev beta)) : Nat :=
  (tr.filter fun ev => match ev with | .put _ _ => true | _ => false).length

/-- Keys of the put events in a trace, in order. -/
def putKeys {beta : Type} (tr : List (Ev beta)) : List String :=
  tr.foldr (fun ev acc => match ev with | .put k _ => k :: acc | _ => acc) []

/-- splitObject, src lines 770-786: fetch the body, default the delimiter to
a newline (line 772), and resolve with [] for an empty body, otherwise with
body.split(delimiter) (lines 774-783).  The encoding argument (default utf8,
line 773) only tells get how to decode the fetched bytes and is abstracted
into the body value itself. -/
def splitObjectM (body : List Char) (delim : Option (List Char)) : List (List Char) :=
  let d := delim.getD ['\n']
  if body = [] then [] else jsSplit d body

/-- JS records.join(this.delimiter) as used at src lines 374 and 641: when
the configured delimiter is undefined (whole-object mode), Array.join falls
back to the "," separator. -/
def jsJoin (sep : Option (List Char)) (xs : List (List Char)) : List Char :=
  joinWith (sep.getD [',']) xs

/-- One step of the whole-object map helper _mapObject (src lines 342-363)
with no target configured: fetch the body, apply func to the whole body, and
_output (lines 398-409) writes the result back to the same key. -/
def mapWholeStep (f : List Char → List Char) (k : String) (b : List Char) :
    List (Ev (List Char)) :=
  [.get k, .put k (f b)]

/-- One step of the split-mode map helper _splitObjects (src lines 365-378)
with no target configured: splitObject the body (the delimiter defaults to a
newline inside splitObject when none is configured), map func over the
records, join them with this.delimiter (line 374; "," when undefined), and
write the joined body back to the same key. -/
def mapSplitStep (delim : Option (List Char)) (f : List Char → List Char)
    (k : String) (b : List Char) : List (Ev (List Char)) :=
  [.get k, .put k (jsJoin delim ((splitObjectM b delim).map f))]

/-- The _continue dispatcher of map (src lines 411-417): after the first key,
isSplit sends the remaining keys through _splitObjects and the whole-object
runs through _mapObject.  The store is an oracle from key to fetched body. -/
def mapLoop (delim : Option (List Char)) (f : List Char → List Char) :
    List (String × List Char) → List (Ev (List Char))
  | [] => []
  | (k, b) :: rest =>
    (if delim.isSome then mapSplitStep delim f k b else mapWholeStep f k b)
      ++ mapLoop delim f rest

/-- The map operation (src lines 419-439), sync mode, no target: the initial
dispatch is the opposite of _continue: if (isSplit) it calls _mapObject and
otherwise _splitObjects (lines 421-430), so the FIRST key of a split-mode
run takes the whole-object path and vice versa; every later key goes through
_continue (modelled by mapLoop), which dispatches the other way around. -/
def mapRun (delim : Option (List Char)) (f : List Char → List Char)
    (objs : List (String × List Char)) : List (Ev (List Char)) :=
  match objs with
  | [] => []
  | (k, b) :: rest =>
    (if delim.isSome then mapWholeStep f k b else mapSplitStep delim f k b)
      ++ mapLoop delim f rest

/-- C1: for the claim that map with a delimiter configured applies the user
function to every record of the body and rejoins with the delimiter: the
code contradicts its own _continue dispatcher (src lines 411-417) at the
initial dispatch (lines 421-430), which routes the first key of a split-mode
run through the whole-object helper _mapObject.  At delimiter newline, body
"a\nb\nc" and func appending "!", the body written is "a\nb\nc!", not the
record-wise "a!\nb!\nc!" the spec states. -/
theorem c1_map_dispatch_bug :
    mapRun (some ['\n']) (fun b => b ++ ['!']) [("k", "a\nb\nc".toList)]
      = [Ev.get "k", Ev.put "k" "a\nb\nc!".toList]
    ∧ "a\nb\nc!".toList ≠ "a!\nb!\nc!".toList := by
  exact ⟨rfl, by decide⟩

/-- C8: splitObject resolves with the ordered sequence of records of the
fetched body split on the delimiter; the delimiter defaults to a newline
when omitted (the utf8 encoding default only governs how get decodes the
fetched bytes); an empty body resolves with the empty sequence, not with a
sequence holding one empty record.  Rejoining the records with the same
delimiter reconstructs the body, so the result is exactly the ordered
substring decomposition. -/
theorem c8_splitObject (body d : List Char) (hb : body ≠ []) :
    splitObjectM [] (some d) = []
    ∧ splitObjectM [] none = []
    ∧ splitObjectM [] (some d) ≠ [[]]
    ∧ splitObjectM body none = splitObjectM body (some ['\n'])
    ∧ joinWith d (splitObjectM body (some d)) = body := by
  refine ⟨rfl, rfl, by simp [splitObjectM], rfl, ?_⟩
  simp only [splitObjectM, Option.getD_some, if_neg hb]
  exact joinWith_jsSplit d body

/-- Witness for C8 at body "a\nb" and delimiter newline. -/
theorem c8_splitObject_w :
    splitObjectM [] (some ['\n']) = []
    ∧ splitObjectM [] none = []
    ∧ splitObjectM [] (some ['\n']) ≠ [[]]
    ∧ splitObjectM "a\nb".toList none = splitObjectM "a\nb".toList (some ['\n'])
    ∧ joinWith ['\n'] (splitObjectM "a\nb".toList (some ['\n'])) = "a\nb".toList :=
  c8_splitObject "a\nb".toList ['\n'] (by decide)

/-- The whole-object reduce helper _reduceObjects (src lines 472-489): fold
func(value, body, key) across the working set in key order, carrying the one
mutable value, and hand the final value to the callback when the key list is
exhausted.  Bodies are opaque here (type beta). -/
def reduceObjects {alpha beta : Type} (f : alpha → beta → String → alpha)
    (v : alpha) : List (String × beta) → alpha
  | [] => v
  | (k, b) :: rest => reduceObjects f (f v b k) rest

/-- The split-mode reduce helper _splitAndReduceObjects (src lines 491-507):
on an empty key list it hands the accumulated value to the callback (lines
492-495); on a non-empty list its first statement is the assignment
key = keys.shift() (line 496).  The identifier key is not declared in any
enclosing scope and the file is strict-mode code (use strict, line 9), so
that assignment throws a ReferenceError, which the enclosing promise chain
delivers to the operation's catch handler; the per-entry reduction code
(_reduceSplitEntries, lines 509-528) is never reached. -/
def splitAndReduceObjects {alpha beta : Type} (f : alpha → List Char → String → alpha)
    (v : alpha) : List (String × beta) → Except JsErr alpha
  | [] => .ok v
  | _ :: _ => .error (.refErr "key")

/-- C3: the whole-object fold does carry a single accumulator across the
working set in key order and yields 10 on bodies of lengths [3,5,2] with
fn = (acc, body) => acc + body.length and initialValue 0; but the claim that
the split-mode fold likewise resolves with the final accumulator fails on
the code: on any non-empty working set the assignment to the undeclared
variable key (src line 496) throws a strict-mode ReferenceError that rejects
the operation before a single record is folded. -/
theorem c3_reduce_split_refError :
    reduceObjects (fun (acc : Nat) (b : String) _ => acc + b.length) 0
      [("k1", "aaa"), ("k2", "bbbbb"), ("k3", "cc")] = 10
    ∧ splitAndReduceObjects (fun (acc : Nat) _ _ => acc) 0
        [("k1", ("a\nb" : String))] = .error (.refErr "key") := by
  exact ⟨rfl, rfl⟩

/-- The async branch of _filterSplitObject (src lines 657-671): its first
statement, promises = [] (line 659), assigns an identifier that is declared
nowhere in scope (the let promises on line 616 is local to _finish); under
strict mode (line 9) the assignment throws a ReferenceError inside the
promise executor, rejecting it before any predicate is invoked.  (Even with
promises declared, line 669 invokes success inside the results loop, and
for an empty record list success would never be invoked at all - the latent
defects the spec flags.) -/
def filterSplitObjectAsync (f : List Char → Bool) (entries : List (List Char)) :
    Except JsErr (List (List Char)) :=
  .error (.refErr "promises")

/-- The split-mode filter loop _splitObjects (src lines 631-654), async
mode, no target: per key, splitObject the body, run _filterSplitObject on
the records, join the survivors with the delimiter (line 641) and put the
joined body back to the source key (lines 645-649); any rejection is handed
to the callback and stops the iteration. -/
def filterSplitRunAsync (f : List Char → Bool) (delim : List Char) :
    List (String × List Char) → List (Ev (List Char)) × Except JsErr Unit
  | [] => ([], .ok ())
  | (k, b) :: rest =>
    match filterSplitObjectAsync f (splitObjectM b (some delim)) with
    | .error e => ([.get k], .error e)
    | .ok newEntries =>
      let r := filterSplitRunAsync f delim rest
      (.get k :: .put k (joinWith delim newEntries) :: r.1, r.2)

/-- The split-mode filter loop _splitObjects (src lines 631-654) with the
sync branch of _filterSplitObject (lines 672-678), no target: per key,
splitObject the body, keep the records entries.filter(func) passes, join
them with the delimiter and put the result back to the source key, then
move to the next key. -/
def filterSplitRunSync (f : List Char → Bool) (delim : List Char) :
    List (String × List Char) → List (Ev (List Char))
  | [] => []
  | (k, b) :: rest =>
    .get k :: .put k (joinWith delim ((splitObjectM b (some delim)).filter f))
      :: filterSplitRunSync f delim rest

/-- C2: the claim that split-mode filter assembles the complete filtered
record sequence, writes the rejoined body, and settles for every input
fails on the code in async mode: the very first statement of the async
branch of _filterSplitObject assigns the undeclared identifier promises
(src line 659), so under strict mode the operation rejects with a
ReferenceError on the first object - nothing is filtered and nothing is
written.  The theorem evaluates the model at one object with body "a\nb". -/
theorem c2_filter_async_split_refError :
    filterSplitRunAsync (fun _ => true) ['\n'] [("k1", "a\nb".toList)]
      = ([Ev.get "k1"], .error (.refErr "promises"))
    ∧ putCount (filterSplitRunAsync (fun _ => true) ['\n']
        [("k1", "a\nb".toList)]).1 = 0 := by
  exact ⟨rfl, rfl⟩

/-- C10 counterexample: as stated, the claim quantifies over every working
set and both execution modes of split-mode filter; in async mode the run
over a one-object working set performs zero puts (it rejects with the
strict-mode ReferenceError of src line 659 before writing), not one put per
object. -/
theorem c10_cx_async_zero_puts :
    putCount (filterSplitRunAsync (fun _ => false) ['\n']
      [("k1", "ab".toList)]).1 = 0
    ∧ [("k1", "ab".toList)].length = 1 := by
  exact ⟨rfl, rfl⟩

/-- C10 (amended): in synchronous mode, split-mode filter performs exactly
one put per object of the working set - also for objects whose records all
pass the predicate - and with no target configured each put overwrites the
object's own source key. -/
theorem c10_filter_split_one_put_per_object (f : List Char → Bool)
    (delim : List Char) (objs : List (String × List Char)) :
    putCount (filterSplitRunSync f delim objs) = objs.length
    ∧ putKeys (filterSplitRunSync f delim objs) = objs.map Prod.fst := by
  induction objs with
  | nil => exact ⟨rfl, rfl⟩
  | cons x rest ih =>
    obtain ⟨k, b⟩ := x
    refine ⟨?_, ?_⟩
    · simpa [filterSplitRunSync, putCount, List.filter] using ih.1
    · simpa [filterSplitRunSync, putKeys] using ih.2

/-- The forEach whole-object helper _eachObject (src lines 237-258): shift
the first key, get its body, apply func (a throw in sync mode or a
rejection in async mode lands in the callback unchanged and stops the
recursion; lines 244-256), else recurse on the remaining keys.  The trace
records the get of every fetched key; the result is the value handed to the
callback, which forEach passes to fail unchanged (lines 293-313). -/
def eachObjectRun {beta eps : Type} (f : beta → Except eps Unit) :
    List (String × beta) → List (Ev beta) × Except eps Unit
  | [] => ([], .ok ())
  | (k, b) :: rest =>
    match f b with
    | .error e => ([.get k], .error e)
    | .ok _ =>
      let r := eachObjectRun f rest
      (.get k :: r.1, r.2)

/-- A JavaScript value returned by a filter predicate: a boolean or some
non-boolean value (numbers and strings suffice for the claims). -/
inductive JsVal where
  | bool (b : Bool)
  | num (n : Int)
  | str (s : String)
deriving DecidableEq

/-- JS truthiness, as used by if (result) at src lines 589/604 and by
Array.prototype.filter at line 674. -/
def truthy : JsVal → Bool
  | .bool b => b
  | .num n => decide (n ≠ 0)
  | .str s => decide (s ≠ "")

/-- typeof result != "boolean". -/
def isBoolVal : JsVal → Bool
  | .bool _ => true
  | _ => false

/-- checkResult (src lines 681-685): throw a TypeError when the predicate
returned a non-boolean.  It is called from _filterObjects only (lines 588
and 603) - inside the get continuation, so the throw surfaces as the
rejection of the operation's promise (line 611 / 595), not as a synchronous
throw of the public filter call. -/
def checkResult (r : JsVal) : Except JsErr Unit :=
  if isBoolVal r then .ok ()
  else .error (.typeErr "Filter function must return a boolean")

/-- The whole-object filter scan _filterObjects (src lines 579-612), sync
and async mode alike at the level of values: fetch each body in key order,
apply func, checkResult the returned value, and push the key onto
keepObjects or removeObjects by the truthiness of the result; an error
stops the scan. -/
def filterScan (f : String → JsVal) :
    List (String × String) → Except JsErr (List String × List String)
  | [] => .ok ([], [])
  | (k, b) :: rest =>
    match checkResult (f b) with
    | .error e => .error e
    | .ok _ =>
      match filterScan f rest with
      | .error e => .error e
      | .ok (keep, remove) =>
        .ok (if truthy (f b) then (k :: keep, remove) else (keep, k :: remove))

/-- getFileName (src line 1017): the part of the key after the last slash
(key.substr(key.lastIndexOf(47) + 1); with no slash the whole key). -/
def getFileName (k : String) : String :=
  (k.splitOn "/").getLastD ""

/-- _finish (src lines 614-629): with a target, copy every kept object to
targetPrefix + fileName in the target bucket; with no target, one batched
delete of the removed keys. -/
def finishEvs (hasTarget : Bool) (tgtPfx : String) (keep remove : List String) :
    List (Ev String) :=
  if hasTarget then keep.map (fun k => .copyEv k (tgtPfx ++ getFileName k))
  else [.delMany remove]

/-- The gets the whole-object filter performs before stopping: one per
scanned key, stopping right after the key whose predicate result fails
checkResult. -/
def filterScanGets (f : String → JsVal) : List (String × String) → List (Ev String)
  | [] => []
  | (k, b) :: rest =>
    .get k :: (if isBoolVal (f b) then filterScanGets f rest else [])

/-- The whole-object filter operation (src lines 565-708, delimiter null):
scan all keys, then _finish; a scan error rejects the operation with that
error and _finish - every deletion and copy - never runs. -/
def filterWholeRun (hasTarget : Bool) (tgtPfx : String) (f : String → JsVal)
    (objs : List (String × String)) : List (Ev String) × Except JsErr Unit :=
  match filterScan f objs with
  | .error e => (filterScanGets f objs, .error e)
  | .ok (keep, remove) =>
    (filterScanGets f objs ++ finishEvs hasTarget tgtPfx keep remove, .ok ())

/-- The sync branch of _filterSplitObject (src lines 672-678):
entries.filter(func).  Array.prototype.filter keeps an entry when the
returned value is truthy; checkResult is never called on this path, so a
non-boolean predicate return raises nothing. -/
def filterSplitObjectSync (f : List Char → JsVal) (entries : List (List Char)) :
    Except JsErr (List (List Char)) :=
  .ok (entries.filter fun e => truthy (f e))

/-- C4 counterexample: a split-mode sync filter invocation whose predicate
returns the non-boolean number 1 completes with the record kept - no type
error is raised anywhere on the split path, refuting the claim that every
filter invocation raises a type error on a non-boolean return. -/
theorem c4_cx_split_no_check :
    filterSplitObjectSync (fun _ => .num 1) ["rec".toList]
      = .ok ["rec".toList] := by
  rfl

/-- C4 (amended): in whole-object mode (sync and async), a non-boolean
return from the predicate raises the TypeError at the call that detects it,
aborting the scan - the keys after the offending one are never fetched and
no deletion or copy ever occurs (the trace holds only the gets up to and
including the offending key) - and the TypeError is delivered as the
rejection of the operation, not as a synchronous throw of the public call;
in split mode no boolean check is performed at all and the returned value
is used for its truthiness. -/
theorem c4_nonbool_typeError (hasTarget : Bool) (tgtPfx : String)
    (f : String → JsVal) (pre post : List (String × String)) (k : String)
    (b : String)
    (hpre : ∀ x ∈ pre, isBoolVal (f x.2) = true)
    (hb : isBoolVal (f b) = false) :
    filterWholeRun hasTarget tgtPfx f (pre ++ (k, b) :: post)
      = (pre.map (fun x => Ev.get x.1) ++ [Ev.get k],
         .error (.typeErr "Filter function must return a boolean")) := by
  induction pre with
  | nil =>
    simp only [List.nil_append, List.map_nil]
    have hcr : checkResult (f b) = .error (.typeErr "Filter function must return a boolean") := by
      simp [checkResult, hb]
    simp [filterWholeRun, filterScan, filterScanGets, hcr, hb]
  | cons x rest ih =>
    obtain ⟨k0, b0⟩ := x
    have hf0 : isBoolVal (f b0) = true := hpre ⟨k0, b0⟩ (by simp)
    have ih2 := ih (fun x hx => hpre x (by simp [hx]))
    have hcr0 : checkResult (f b0) = .ok () := by simp [checkResult, hf0]
    rw [List.cons_append]
    simp only [filterWholeRun, filterScan, filterScanGets, hcr0, hf0, if_true]
    simp only [filterWholeRun] at ih2
    cases hscan : filterScan f (rest ++ (k, b) :: post) with
    | error e =>
      rw [hscan] at ih2
      simp only at ih2
      have h1 := congrArg Prod.fst ih2
      have h2 := congrArg Prod.snd ih2
      simp only at h1 h2
      cases h2
      simp [h1]
    | ok kr =>
      rw [hscan] at ih2
      exact absurd (congrArg Prod.snd ih2) (by simp)

/-- Witness for C4 at a two-key working set whose second predicate result
is the string "yes": the run stops after fetching k1 and k2 and rejects
with the TypeError; no delete or copy event is emitted. -/
theorem c4_nonbool_typeError_w :
    filterWholeRun false "" (fun b => if b = "x" then .str "yes" else .bool true)
      [("k1", "a"), ("k2", "x"), ("k3", "z")]
      = ([Ev.get "k1", Ev.get "k2"],
         .error (.typeErr "Filter function must return a boolean")) := by
  have h := c4_nonbool_typeError false ""
    (fun b => if b = "x" then .str "yes" else .bool true)
    [("k1", "a")] [("k3", "z")] "k2" "x"
    (by intro x hx; simp only [List.mem_singleton] at hx; subst hx; rfl)
    rfl
  simpa using h

/-- The record loop _eachSplit of forEach (src lines 274-291): in sync mode
entries.forEach(func) throws at the first failing record, in async mode
Promise.all rejects with the failing record's error; at the level of values
both abort at the first failing record in order, with its error value. -/
def eachEntries {eps : Type} (f : List Char → Except eps Unit) :
    List (List Char) → Except eps Unit
  | [] => .ok ()
  | x :: xs =>
    match f x with
    | .error e => .error e
    | .ok _ => eachEntries f xs

/-- The split-mode forEach loop _splitObjects (src lines 260-272): per key,
splitObject the body (one get) and run _eachSplit over its records; an
error is handed to the callback unchanged and stops the recursion, so no
later key is fetched. -/
def eachSplitRun {eps : Type} (d : List Char) (f : List Char → Except eps Unit) :
    List (String × List Char) → List (Ev (List Char)) × Except eps Unit
  | [] => ([], .ok ())
  | (k, b) :: rest =>
    match eachEntries f (splitObjectM b (some d)) with
    | .error e => ([.get k], .error e)
    | .ok _ =>
      let r := eachSplitRun d f rest
      (.get k :: r.1, r.2)

/-- One step of the whole-object map helper _mapObject (src lines 342-363)
with _output (lines 398-409), no target, with the user-function failure
path explicit: on a throw or rejection the key is fetched but not written
and the error goes to the callback unchanged. -/
def mapWholeStepE {eps : Type} (f : List Char → Except eps (List Char))
    (k : String) (b : List Char) : List (Ev (List Char)) × Except eps Unit :=
  match f b with
  | .error e => ([.get k], .error e)
  | .ok nb => ([.get k, .put k nb], .ok ())

/-- The record mapper _mapSplit (src lines 380-396): sync entries.map(func)
throws at the first failing record, async Promise.all rejects with its
error; value-level both abort at the first failing record, else return the
mapped records in order. -/
def mapEntriesE {eps : Type} (f : List Char → Except eps (List Char)) :
    List (List Char) → Except eps (List (List Char))
  | [] => .ok []
  | x :: xs =>
    match f x with
    | .error e => .error e
    | .ok y => (mapEntriesE f xs).map (fun ys => y :: ys)

/-- One step of the split-mode map helper _splitObjects (src lines 365-378),
no target: splitObject the body, _mapSplit the records, join the results
with this.delimiter and put; a record failure leaves the key fetched but
unwritten and carries the record's error. -/
def mapSplitStepE {eps : Type} (delim : Option (List Char))
    (f : List Char → Except eps (List Char)) (k : String) (b : List Char) :
    List (Ev (List Char)) × Except eps Unit :=
  match mapEntriesE f (splitObjectM b delim) with
  | .error e => ([.get k], .error e)
  | .ok newEntries => ([.get k, .put k (jsJoin delim newEntries)], .ok ())

/-- The branch map takes for the FIRST key (src lines 421-430): the inverted
initial dispatch sends a split-mode run through _mapObject and a
whole-object run through _splitObjects. -/
def mapStepTop {eps : Type} (delim : Option (List Char))
    (f : List Char → Except eps (List Char)) (k : String) (b : List Char) :
    List (Ev (List Char)) × Except eps Unit :=
  if delim.isSome then mapWholeStepE f k b else mapSplitStepE delim f k b

/-- The branch _continue takes for every later key (src lines 411-417):
split-mode keys go through _splitObjects, whole-object keys through
_mapObject. -/
def mapStepCont {eps : Type} (delim : Option (List Char))
    (f : List Char → Except eps (List Char)) (k : String) (b : List Char) :
    List (Ev (List Char)) × Except eps Unit :=
  if delim.isSome then mapSplitStepE delim f k b else mapWholeStepE f k b

/-- The map iteration from the second key on, driven by _continue (src
lines 411-417): a step error stops the recursion with that error. -/
def mapLoopE {eps : Type} (delim : Option (List Char))
    (f : List Char → Except eps (List Char)) :
    List (String × List Char) → List (Ev (List Char)) × Except eps Unit
  | [] => ([], .ok ())
  | (k, b) :: rest =>
    match mapStepCont delim f k b with
    | (tr, .error e) => (tr, .error e)
    | (tr, .ok _) =>
      let r := mapLoopE delim f rest
      (tr ++ r.1, r.2)

/-- The map operation (src lines 419-439), sync or async at the level of
values, no target: the first key through the inverted initial dispatch
(mapStepTop), every later key through _continue (mapLoopE); a step error is
handed to fail unchanged and ends the run. -/
def mapRunE {eps : Type} (delim : Option (List Char))
    (f : List Char → Except eps (List Char)) :
    List (String × List Char) → List (Ev (List Char)) × Except eps Unit
  | [] => ([], .ok ())
  | (k, b) :: rest =>
    match mapStepTop delim f k b with
    | (tr, .error e) => (tr, .error e)
    | (tr, .ok _) =>
      let r := mapLoopE delim f rest
      (tr ++ r.1, r.2)

/-- The whole-object reduce helper _reduceObjects (src lines 472-489) with
the user-function failure path explicit: a sync throw or async rejection of
func lands in callback(e, null) (lines 483 and 488) and stops the fold; the
pure reduceObjects above is its success-path projection.  The trace records
the get of every fetched key (reduce writes nothing). -/
def reduceObjectsE {alpha beta eps : Type}
    (f : alpha → beta → String → Except eps alpha) (v : alpha) :
    List (String × beta) → List (Ev beta) × Except eps alpha
  | [] => ([], .ok v)
  | (k, b) :: rest =>
    match f v b k with
    | .error e => ([.get k], .error e)
    | .ok v2 =>
      let r := reduceObjectsE f v2 rest
      (.get k :: r.1, r.2)

/-- The whole-object filter scan _filterObjects (src lines 579-612) for a
predicate that returns a boolean when it returns but may throw (sync, lines
596-601) or reject (async, line 595): the error lands in the callback and
stops the scan; on success the keys are pushed onto keepObjects or
removeObjects in key order. -/
def filterScanE {eps : Type} (f : String → Except eps Bool) :
    List (String × String) → List (Ev String) × Except eps (List String × List String)
  | [] => ([], .ok ([], []))
  | (k, b) :: rest =>
    match f b with
    | .error e => ([.get k], .error e)
    | .ok res =>
      let r := filterScanE f rest
      (.get k :: r.1,
       r.2.map (fun kr => if res then (k :: kr.1, kr.2) else (kr.1, k :: kr.2)))

/-- The whole-object filter operation with a possibly-failing predicate:
_finish (src lines 614-629) runs only when the scan of every key
completed, so a user-function error aborts with no deletion or copy. -/
def filterRunE {eps : Type} (hasTarget : Bool) (tgtPfx : String)
    (f : String → Except eps Bool) (objs : List (String × String)) :
    List (Ev String) × Except eps Unit :=
  match filterScanE f objs with
  | (tr, .error e) => (tr, .error e)
  | (tr, .ok kr) => (tr ++ finishEvs hasTarget tgtPfx kr.1 kr.2, .ok ())

/-- The sync branch of _filterSplitObject (src lines 672-678) for a
throwing predicate: entries.filter(func) applies func left to right and the
first throw propagates to fail; on success the surviving records are
returned in order. -/
def filterSplitEntriesE {eps : Type} (f : List Char → Except eps Bool) :
    List (List Char) → Except eps (List (List Char))
  | [] => .ok []
  | x :: xs =>
    match f x with
    | .error e => .error e
    | .ok r => (filterSplitEntriesE f xs).map (fun ys => if r then x :: ys else ys)

/-- The split-mode filter loop _splitObjects (src lines 631-654), sync
mode, no target, with the user-function failure path explicit: a predicate
throw leaves the key fetched but unwritten and stops the iteration. -/
def filterSplitRunE {eps : Type} (d : List Char) (f : List Char → Except eps Bool) :
    List (String × List Char) → List (Ev (List Char)) × Except eps Unit
  | [] => ([], .ok ())
  | (k, b) :: rest =>
    match filterSplitEntriesE f (splitObjectM b (some d)) with
    | .error e => ([.get k], .error e)
    | .ok newEntries =>
      let r := filterSplitRunE d f rest
      (.get k :: .put k (joinWith d newEntries) :: r.1, r.2)

theorem mapWholeStepE_error {eps : Type} (f : List Char → Except eps (List Char))
    (k : String) (b : List Char) (e : eps)
    (h : (mapWholeStepE f k b).2 = .error e) :
    mapWholeStepE f k b = ([Ev.get k], .error e) := by
  cases hf : f b with
  | error e2 =>
    simp [mapWholeStepE, hf] at h
    simp [mapWholeStepE, hf, h]
  | ok nb => simp [mapWholeStepE, hf] at h

theorem mapSplitStepE_error {eps : Type} (delim : Option (List Char))
    (f : List Char → Except eps (List Char)) (k : String) (b : List Char) (e : eps)
    (h : (mapSplitStepE delim f k b).2 = .error e) :
    mapSplitStepE delim f k b = ([Ev.get k], .error e) := by
  cases hf : mapEntriesE f (splitObjectM b delim) with
  | error e2 =>
    simp [mapSplitStepE, hf] at h
    simp [mapSplitStepE, hf, h]
  | ok nb => simp [mapSplitStepE, hf] at h

theorem mapStepTop_error {eps : Type} (delim : Option (List Char))
    (f : List Char → Except eps (List Char)) (k : String) (b : List Char) (e : eps)
    (h : (mapStepTop delim f k b).2 = .error e) :
    mapStepTop delim f k b = ([Ev.get k], .error e) := by
  by_cases hd : delim.isSome = true
  · simp only [mapStepTop, hd, if_true] at h ⊢
    exact mapWholeStepE_error f k b e h
  · simp only [mapStepTop, hd, if_false, Bool.false_eq_true] at h ⊢
    exact mapSplitStepE_error delim f k b e h

theorem mapStepCont_error {eps : Type} (delim : Option (List Char))
    (f : List Char → Except eps (List Char)) (k : String) (b : List Char) (e : eps)
    (h : (mapStepCont delim f k b).2 = .error e) :
    mapStepCont delim f k b = ([Ev.get k], .error e) := by
  by_cases hd : delim.isSome = true
  · simp only [mapStepCont, hd, if_true] at h ⊢
    exact mapSplitStepE_error delim f k b e h
  · simp only [mapStepCont, hd, if_false, Bool.false_eq_true] at h ⊢
    exact mapWholeStepE_error f k b e h

theorem mapLoopE_abort {eps : Type} (delim : Option (List Char))
    (f : List Char → Except eps (List Char)) (pre post : List (String × List Char))
    (k : String) (b : List Char) (e : eps)
    (hpre : ∀ x ∈ pre, (mapStepCont delim f x.1 x.2).2 = .ok ())
    (hb : (mapStepCont delim f k b).2 = .error e) :
    mapLoopE delim f (pre ++ (k, b) :: post)
      = ((pre.map (fun x => (mapStepCont delim f x.1 x.2).1)).flatten
          ++ [Ev.get k], .error e) := by
  induction pre with
  | nil =>
    have hstep := mapStepCont_error delim f k b e hb
    simp [mapLoopE, hstep]
  | cons x rest ih =>
    obtain ⟨k0, b0⟩ := x
    have h0 : (mapStepCont delim f k0 b0).2 = .ok () := hpre ⟨k0, b0⟩ (by simp)
    have hpair : mapStepCont delim f k0 b0
        = ((mapStepCont delim f k0 b0).1, Except.ok ()) := by
      rw [← h0]
    have ih2 := ih (fun y hy => hpre y (by simp [hy]))
    rw [List.cons_append]
    simp only [mapLoopE]
    rw [hpair]
    simp [ih2, List.append_assoc]

theorem filterScanE_abort {eps : Type} (f : String → Except eps Bool)
    (pre post : List (String × String)) (k : String) (b : String) (e : eps)
    (hpre : ∀ x ∈ pre, ∃ r, f x.2 = .ok r)
    (hb : f b = .error e) :
    filterScanE f (pre ++ (k, b) :: post)
      = (pre.map (fun x => Ev.get x.1) ++ [Ev.get k], .error e) := by
  induction pre with
  | nil => simp [filterScanE, hb]
  | cons x rest ih =>
    obtain ⟨k0, b0⟩ := x
    obtain ⟨r0, hr0⟩ := hpre ⟨k0, b0⟩ (by simp)
    have ih2 := ih (fun y hy => hpre y (by simp [hy]))
    rw [List.cons_append]
    simp [filterScanE, hr0, ih2, Except.map]

theorem reduceObjectsE_abort {alpha beta eps : Type}
    (f : alpha → beta → String → Except eps alpha)
    (pre post : List (String × beta)) (k : String) (b : beta) (e : eps)
    (hpre : ∀ x ∈ pre, ∀ a, ∃ a2, f a x.2 x.1 = .ok a2)
    (hb : ∀ a, f a b k = .error e) :
    ∀ v, reduceObjectsE f v (pre ++ (k, b) :: post)
      = (pre.map (fun x => Ev.get x.1) ++ [Ev.get k], .error e) := by
  induction pre with
  | nil =>
    intro v
    simp [reduceObjectsE, hb v]
  | cons x rest ih =>
    intro v
    obtain ⟨k0, b0⟩ := x
    obtain ⟨a2, ha2⟩ := hpre ⟨k0, b0⟩ (by simp) v
    have ih2 := ih (fun y hy => hpre y (by simp [hy]))
    rw [List.cons_append]
    simp [reduceObjectsE, ha2, ih2 a2]

/-- C7: for each of the four operations, a user function that throws (sync)
or rejects (async) on the Nth key aborts the operation: the emitted store
events are exactly those of the earlier keys plus the single get of the
failing key - keys after N are never fetched or written, the failing key is
never written, and filter's finish phase (deletes/copies) never runs - and
the triggering error value itself becomes the rejection of the operation.
The conjuncts cover forEach (whole-object and split), map (through the
actual inverted initial dispatch of src lines 421-430: one conjunct for a
failure on the first key, one for a failure on any later key), reduce
(whole-object; the split path is dead code, see C3), and filter
(whole-object, and the sync split path; the async split path is dead code,
see C2). -/
theorem c7_user_error_aborts (eps : Type) :
    (∀ (beta : Type) (f : beta → Except eps Unit)
        (pre post : List (String × beta)) (k : String) (b : beta) (e : eps),
      (∀ x ∈ pre, f x.2 = .ok ()) → f b = .error e →
      eachObjectRun f (pre ++ (k, b) :: post)
        = (pre.map (fun x => Ev.get x.1) ++ [Ev.get k], Except.error e))
    ∧ (∀ (d : List Char) (f : List Char → Except eps Unit)
        (pre post : List (String × List Char)) (k : String) (b : List Char) (e : eps),
      (∀ x ∈ pre, eachEntries f (splitObjectM x.2 (some d)) = .ok ()) →
      eachEntries f (splitObjectM b (some d)) = .error e →
      eachSplitRun d f (pre ++ (k, b) :: post)
        = (pre.map (fun x => Ev.get x.1) ++ [Ev.get k], Except.error e))
    ∧ (∀ (delim : Option (List Char)) (f : List Char → Except eps (List Char))
        (post : List (String × List Char)) (k : String) (b : List Char) (e : eps),
      (mapStepTop delim f k b).2 = .error e →
      mapRunE delim f ((k, b) :: post) = ([Ev.get k], Except.error e))
    ∧ (∀ (delim : Option (List Char)) (f : List Char → Except eps (List Char))
        (k0 : String) (b0 : List Char) (pre post : List (String × List Char))
        (k : String) (b : List Char) (e : eps),
      (mapStepTop delim f k0 b0).2 = .ok () →
      (∀ x ∈ pre, (mapStepCont delim f x.1 x.2).2 = .ok ()) →
      (mapStepCont delim f k b).2 = .error e →
      mapRunE delim f ((k0, b0) :: pre ++ (k, b) :: post)
        = ((mapStepTop delim f k0 b0).1
            ++ ((pre.map (fun x => (mapStepCont delim f x.1 x.2).1)).flatten
                ++ [Ev.get k]), Except.error e))
    ∧ (∀ (alpha beta : Type) (f : alpha → beta → String → Except eps alpha)
        (v : alpha) (pre post : List (String × beta)) (k : String) (b : beta) (e : eps),
      (∀ x ∈ pre, ∀ a, ∃ a2, f a x.2 x.1 = .ok a2) →
      (∀ a, f a b k = .error e) →
      reduceObjectsE f v (pre ++ (k, b) :: post)
        = (pre.map (fun x => Ev.get x.1) ++ [Ev.get k], Except.error e))
    ∧ (∀ (hasTarget : Bool) (tgtPfx : String) (f : String → Except eps Bool)
        (pre post : List (String × String)) (k : String) (b : String) (e : eps),
      (∀ x ∈ pre, ∃ r, f x.2 = .ok r) → f b = .error e →
      filterRunE hasTarget tgtPfx f (pre ++ (k, b) :: post)
        = (pre.map (fun x => Ev.get x.1) ++ [Ev.get k], Except.error e))
    ∧ (∀ (d : List Char) (f : List Char → Except eps Bool)
        (g : String × List Char → List (List Char))
        (pre post : List (String × List Char)) (k : String) (b : List Char) (e : eps),
      (∀ x ∈ pre, filterSplitEntriesE f (splitObjectM x.2 (some d)) = .ok (g x)) →
      filterSplitEntriesE f (splitObjectM b (some d)) = .error e →
      filterSplitRunE d f (pre ++ (k, b) :: post)
        = ((pre.map (fun x => [Ev.get x.1, Ev.put x.1 (joinWith d (g x))])).flatten
            ++ [Ev.get k], Except.error e)) := by
  refine ⟨?_, ?_, ?_, ?_, ?_, ?_, ?_⟩
  · intro beta f pre post k b e hpre hb
    induction pre with
    | nil => simp [eachObjectRun, hb]
    | cons x rest ih =>
      obtain ⟨k0, b0⟩ := x
      have h0 : f b0 = .ok () := hpre ⟨k0, b0⟩ (by simp)
      have ih2 := ih (fun y hy => hpre y (by simp [hy]))
      rw [List.cons_append]
      simp [eachObjectRun, h0, ih2]
  · intro d f pre post k b e hpre hb
    induction pre with
    | nil => simp [eachSplitRun, hb]
    | cons x rest ih =>
      obtain ⟨k0, b0⟩ := x
      have h0 := hpre ⟨k0, b0⟩ (by simp)
      have ih2 := ih (fun y hy => hpre y (by simp [hy]))
      rw [List.cons_append]
      simp [eachSplitRun, h0, ih2]
  · intro delim f post k b e hb
    have hstep := mapStepTop_error delim f k b e hb
    simp [mapRunE, hstep]
  · intro delim f k0 b0 pre post k b e htop hpre hb
    have hpair : mapStepTop delim f k0 b0
        = ((mapStepTop delim f k0 b0).1, Except.ok ()) := by
      rw [← htop]
    have habort := mapLoopE_abort delim f pre post k b e hpre hb
    obtain ⟨tr, htr⟩ : ∃ tr, mapStepTop delim f k0 b0 = (tr, Except.ok ()) :=
      ⟨_, hpair⟩
    simp only [mapRunE]
    rw [htr]
    simp [habort, htr]
  · intro alpha beta f v pre post k b e hpre hb
    exact reduceObjectsE_abort f pre post k b e hpre hb v
  · intro hasTarget tgtPfx f pre post k b e hpre hb
    have hscan := filterScanE_abort f pre post k b e hpre hb
    simp [filterRunE, hscan]
  · intro d f g pre post k b e hpre hb
    induction pre with
    | nil => simp [filterSplitRunE, hb]
    | cons x rest ih =>
      obtain ⟨k0, b0⟩ := x
      have h0 := hpre ⟨k0, b0⟩ (by simp)
      have ih2 := ih (fun y hy => hpre y (by simp [hy]))
      rw [List.cons_append]
      simp [filterSplitRunE, h0, ih2, List.append_assoc]

/-- Witness for C7, one concrete run per conjunct, user error value "boom"
on the second or third key: only the keys up to the failing one are
fetched, the failing key is never written, and the error is the delivered
rejection. -/
theorem c7_user_error_aborts_w :
    eachObjectRun (fun n => if n = 0 then .error "boom" else .ok ())
      [("k1", 1), ("k2", 0), ("k3", (5 : Nat))]
      = ([Ev.get "k1", Ev.get "k2"], Except.error "boom")
    ∧ eachSplitRun ['\n']
      (fun r => if r = "bad".toList then .error "boom" else .ok ())
      [("k1", "a\nb".toList), ("k2", "bad".toList), ("k3", "z".toList)]
      = ([Ev.get "k1", Ev.get "k2"], Except.error "boom")
    ∧ mapRunE (some ['\n'])
      (fun r => if r = "a\nb".toList then .error "boom" else .ok r)
      [("k1", "a\nb".toList), ("k2", "z".toList)]
      = ([Ev.get "k1"], Except.error "boom")
    ∧ mapRunE (some ['\n'])
      (fun r => if r = "bad".toList then .error "boom" else .ok (r ++ ['!']))
      [("k1", "a".toList), ("k2", "c\nd".toList), ("k3", "x\nbad".toList),
       ("k4", "w".toList)]
      = ([Ev.get "k1", Ev.put "k1" "a!".toList,
          Ev.get "k2", Ev.put "k2" "c!\nd!".toList, Ev.get "k3"],
         Except.error "boom")
    ∧ reduceObjectsE
      (fun (a : Nat) (b2 : String) (_ : String) =>
        if b2 = "bad" then .error "boom" else .ok (a + b2.length)) 0
      [("k1", "abc"), ("k2", "bad"), ("k3", "zz")]
      = ([Ev.get "k1", Ev.get "k2"], Except.error "boom")
    ∧ filterRunE false ""
      (fun b2 => if b2 = "bad" then .error "boom" else .ok true)
      [("k1", "a"), ("k2", "bad"), ("k3", "c")]
      = ([Ev.get "k1", Ev.get "k2"], Except.error "boom")
    ∧ filterSplitRunE ['\n']
      (fun r => if r = "bad".toList then .error "boom" else .ok true)
      [("k1", "a\nb".toList), ("k2", "c\nbad".toList), ("k3", "z".toList)]
      = ([Ev.get "k1", Ev.put "k1" "a\nb".toList, Ev.get "k2"],
         Except.error "boom") := by
  have h := c7_user_error_aborts String
  refine ⟨?_, ?_, ?_, ?_, ?_, ?_, ?_⟩
  · exact h.1 Nat (fun n => if n = 0 then .error "boom" else .ok ())
      [("k1", 1)] [("k3", (5 : Nat))] "k2" 0 "boom"
      (by intro x hx; simp only [List.mem_singleton] at hx; subst hx; rfl) rfl
  · exact h.2.1 ['\n']
      (fun r => if r = "bad".toList then .error "boom" else .ok ())
      [("k1", "a\nb".toList)] [("k3", "z".toList)] "k2" "bad".toList "boom"
      (by intro x hx; simp only [List.mem_singleton] at hx; subst hx; rfl) rfl
  · exact h.2.2.1 (some ['\n'])
      (fun r => if r = "a\nb".toList then .error "boom" else .ok r)
      [("k2", "z".toList)] "k1" "a\nb".toList "boom" rfl
  · exact h.2.2.2.1 (some ['\n'])
      (fun r => if r = "bad".toList then .error "boom" else .ok (r ++ ['!']))
      "k1" "a".toList [("k2", "c\nd".toList)] [("k4", "w".toList)]
      "k3" "x\nbad".toList "boom" rfl
      (by intro x hx; simp only [List.mem_singleton] at hx; subst hx; rfl) rfl
  · exact h.2.2.2.2.1 Nat String
      (fun (a : Nat) (b2 : String) (_ : String) =>
        if b2 = "bad" then .error "boom" else .ok (a + b2.length)) 0
      [("k1", "abc")] [("k3", "zz")] "k2" "bad" "boom"
      (by intro x hx; simp only [List.mem_singleton] at hx; subst hx
          intro a; exact ⟨_, rfl⟩)
      (fun a => rfl)
  · exact h.2.2.2.2.2.1 false ""
      (fun b2 => if b2 = "bad" then .error "boom" else .ok true)
      [("k1", "a")] [("k3", "c")] "k2" "bad" "boom"
      (by intro x hx; simp only [List.mem_singleton] at hx; subst hx
          exact ⟨_, rfl⟩) rfl
  · exact h.2.2.2.2.2.2 ['\n']
      (fun r => if r = "bad".toList then .error "boom" else .ok true)
      (fun x => splitObjectM x.2 (some ['\n']))
      [("k1", "a\nb".toList)] [("k3", "z".toList)] "k2" "c\nbad".toList "boom"
      (by intro x hx; simp only [List.mem_singleton] at hx; subst hx; rfl) rfl

/-- The type tag of a resolved location (TYPE_S3 / TYPE_FILE, src lines
14-15). -/
inductive KeyType where
  | s3
  | file
deriving DecidableEq

/-- The object resolveKey builds (src lines 992-1007): bucket, prefix and
file fields (null modelled as none) plus the type tag. -/
structure Resolved where
  bucket : Option (List Char)
  pfx : Option (List Char)
  file : Option (List Char)
  ktype : KeyType
deriving DecidableEq

/-- The scheme literal the resolver recognizes. -/
def s3Scheme : List Char := "s3://".toList

/-- resolveKey (src lines 992-1007).  key.indexOf(scheme) == 0 is the
prefix test; key.substr(5, key.length - 1) keeps everything after the
scheme (the length argument always exceeds the remainder); the bucket is
key.split(slash)[0], which is the run of characters before the first slash
(takeWhile); the prefix is key.substr(key.indexOf(slash) + 1): everything
after the first slash when one exists, and - because indexOf yields -1 and
substr(0) is the whole string - the whole remainder when no slash occurs.
Any non-scheme string resolves to a local file path.  Total: no input
raises. -/
def resolveKey (key : List Char) : Resolved :=
  if s3Scheme.isPrefixOf key then
    let k := key.drop 5
    { bucket := some (k.takeWhile (· ≠ '/'))
      pfx := some (if '/' ∈ k then (k.dropWhile (· ≠ '/')).tail else k)
      file := none
      ktype := .s3 }
  else
    { bucket := none, pfx := none, file := some key, ktype := .file }

/-- C5 counterexample: the claim says a malformed store URI with no slash
after the bucket degrades to an empty bucket and prefix; on the input
s3://foo the code instead resolves bucket foo and prefix foo (both the
whole non-empty remainder). -/
theorem c5_cx_no_slash_not_empty :
    resolveKey "s3://foo".toList
      = { bucket := some "foo".toList, pfx := some "foo".toList,
          file := none, ktype := .s3 }
    ∧ "foo".toList ≠ ([] : List Char) := by
  exact ⟨by decide, by decide⟩

theorem takeWhile_until_slash (bkt rest : List Char) (h : '/' ∉ bkt) :
    (bkt ++ '/' :: rest).takeWhile (fun c => !decide (c = '/')) = bkt := by
  induction bkt with
  | nil => simp [List.takeWhile]
  | cons a t ih =>
    have ha : a ≠ '/' := fun hEq => h (hEq ▸ List.mem_cons_self a t)
    have ht : '/' ∉ t := fun hm => h (List.mem_cons_of_mem a hm)
    simp [List.takeWhile_cons, ha, ih ht]

theorem dropWhile_until_slash (bkt rest : List Char) (h : '/' ∉ bkt) :
    (bkt ++ '/' :: rest).dropWhile (fun c => !decide (c = '/')) = '/' :: rest := by
  induction bkt with
  | nil => simp [List.dropWhile]
  | cons a t ih =>
    have ha : a ≠ '/' := fun hEq => h (hEq ▸ List.mem_cons_self a t)
    have ht : '/' ∉ t := fun hm => h (List.mem_cons_of_mem a hm)
    simp [List.dropWhile_cons, ha, ih ht]

/-- C5 (amended): the resolver is a total function: a string beginning with
the store scheme parses the bucket as the first path segment and the prefix
as the remainder after the first slash (so for bucket segment b and any
tail r, s3://b/r resolves to bucket b and prefix r); when the remainder
holds no slash, bucket and prefix are both the whole remainder (so they are
empty only for the bare scheme string s3://, which is the only input that
degrades to an empty bucket and prefix); any other string is treated as a
local file path. -/
theorem c5_resolveKey (key rest bkt rest2 : List Char) :
    (¬ s3Scheme.isPrefixOf key →
      resolveKey key = { bucket := none, pfx := none, file := some key,
                         ktype := .file })
    ∧ ('/' ∉ rest →
      resolveKey (s3Scheme ++ rest)
        = { bucket := some rest, pfx := some rest, file := none, ktype := .s3 })
    ∧ ('/' ∉ bkt →
      resolveKey (s3Scheme ++ (bkt ++ '/' :: rest2))
        = { bucket := some bkt, pfx := some rest2, file := none, ktype := .s3 })
    ∧ resolveKey s3Scheme
        = { bucket := some [], pfx := some [], file := none, ktype := .s3 } := by
  refine ⟨?_, ?_, ?_, by decide⟩
  · intro h
    simp [resolveKey, h]
  · intro h
    have hpre : s3Scheme.isPrefixOf (s3Scheme ++ rest) = true :=
      List.isPrefixOf_iff_prefix.mpr (List.prefix_append _ _)
    have hdrop : (s3Scheme ++ rest).drop 5 = rest := List.drop_left s3Scheme rest
    have htake : rest.takeWhile (fun c => decide (c ≠ '/')) = rest :=
      List.takeWhile_eq_self_iff.mpr (by
        intro a ha
        simp only [decide_eq_true_eq]
        exact fun hEq => h (hEq ▸ ha))
    simp [resolveKey, hpre, hdrop, htake, h]
    exact fun x hx hEq => h (hEq ▸ hx)
  · intro hbkt
    have hpre : s3Scheme.isPrefixOf (s3Scheme ++ (bkt ++ '/' :: rest2)) = true :=
      List.isPrefixOf_iff_prefix.mpr (List.prefix_append _ _)
    have hdrop : (s3Scheme ++ (bkt ++ '/' :: rest2)).drop 5 = bkt ++ '/' :: rest2 :=
      List.drop_left s3Scheme _
    have hmem : '/' ∈ bkt ++ '/' :: rest2 :=
      List.mem_append_right _ (List.mem_cons_self _ _)
    simp [resolveKey, hpre, hdrop, hmem, takeWhile_until_slash bkt rest2 hbkt,
      dropWhile_until_slash bkt rest2 hbkt]

/-- Witness for C5 at a local path, a slash-free store URI and a well
formed store URI s3://b/x/y. -/
theorem c5_resolveKey_w :
    resolveKey "local.txt".toList
      = { bucket := none, pfx := none, file := some "local.txt".toList,
          ktype := .file }
    ∧ resolveKey (s3Scheme ++ "mybkt".toList)
      = { bucket := some "mybkt".toList, pfx := some "mybkt".toList,
          file := none, ktype := .s3 }
    ∧ resolveKey (s3Scheme ++ ("b".toList ++ '/' :: "x/y".toList))
      = { bucket := some "b".toList, pfx := some "x/y".toList,
          file := none, ktype := .s3 } := by
  have h := c5_resolveKey "local.txt".toList "mybkt".toList "b".toList "x/y".toList
  exact ⟨h.1 (by decide), h.2.1 (by decide), h.2.2.1 (by decide)⟩

/-- The prefix normalization of listObjects (src line 931): append a slash
when the last character is not already a slash (an empty prefix gets one
too, since prefix[-1] is undefined). -/
def withSlash (p : String) : String :=
  if p.toList.getLast? = some '/' then p else p ++ "/"

/-- The directory-marker discard of listObjects (src lines 940-944): if the
page is non-empty and its FIRST key equals the slashed prefix, shift it off.
Nothing restricts this to the first page: listObjects applies it to every
page it returns. -/
def dropDirMarker (pre : String) (ks : List String) : List String :=
  match ks with
  | [] => []
  | k :: rest => if k = pre then rest else k :: rest

/-- listObjects (src lines 929-948): one page of the store listing for the
slashed prefix starting after the marker, with the directory-marker discard
applied.  The transport is the oracle pages from marker to the raw page (the
bucket and prefix are fixed for a run). -/
def listObjectsM (pages : String → List String) (p m : String) : List String :=
  dropDirMarker (withSlash p) (pages m)

/-- The _keys recursion of list (src lines 163-183): push every key of the
page onto the accumulator, advance the marker to the last key pushed, and
recurse; a page with zero keys resolves with the accumulator.  The fuel
bounds the recursion depth (the JS recursion is unbounded); none means the
enumeration did not finish within the fuel. -/
def listRun (pages : String → List String) (p : String) :
    Nat → List String → String → Option (List String)
  | 0, _, _ => none
  | fuel + 1, acc, m =>
    let ks := listObjectsM pages p m
    if h : ks = [] then some acc
    else listRun pages p fuel (acc ++ ks) (ks.getLast h)

/-- Modelled from the amended claim text: the enumeration is, page by page,
the concatenation of the pages with the directory-marker discard applied to
every page, the next marker being the last key of the discarded page, and
the iteration ending at the first page that is empty after the discard. -/
def collectPages (pages : String → List String) (pre : String) :
    Nat → String → Option (List String)
  | 0, _ => none
  | fuel + 1, m =>
    let ks := dropDirMarker pre (pages m)
    if h : ks = [] then some []
    else (collectPages pages pre fuel (ks.getLast h)).map (ks ++ ·)

/-- A transport whose second page starts with the slashed prefix itself:
page one is [p/a], page two (marker p/a) is [p/, p/b], page three is
empty. -/
def cxPages (m : String) : List String :=
  if m = "" then ["p/a"] else if m = "p/a" then ["p/", "p/b"] else []

/-- C6 counterexample: the claim says only a first key equal to the prefix
on the very first page is discarded, so on cxPages the result should be
[p/a, p/, p/b]; the code discards the prefix-equal first key of EVERY page
(src lines 941-943 run on each listObjects call), and list returns
[p/a, p/b]. -/
theorem c6_cx_second_page_marker_dropped :
    listRun cxPages "p" 10 [] "" = some ["p/a", "p/b"]
    ∧ some ["p/a", "p/b"] ≠ some ["p/a", "p/", "p/b"] := by
  exact ⟨by rfl, by decide⟩

/-- C6 (amended): list returns the keys in the order the paginated
enumerator yielded them, as the concatenation of the pages where a first
key equal to the slashed prefix is discarded from every page (not only the
very first); the next marker is the last key of the current post-discard
page and the iteration terminates exactly when a post-discard page is
empty.  Stated as a refinement: the accumulator-passing recursion of list
equals the page-by-page concatenation, for every transport, fuel, marker
and accumulator. -/
theorem c6_list_pages (pages : String → List String) (p : String)
    (fuel : Nat) (acc : List String) (m : String) :
    listRun pages p fuel acc m
      = (collectPages pages (withSlash p) fuel m).map (acc ++ ·) := by
  induction fuel generalizing acc m with
  | zero => rfl
  | succ fuel ih =>
    simp only [listRun, collectPages, listObjectsM]
    by_cases h : dropDirMarker (withSlash p) (pages m) = []
    · simp [h]
    · simp only [dif_neg h]
      rw [ih]
      cases collectPages pages (withSlash p) fuel
        ((dropDirMarker (withSlash p) (pages m)).getLast h) with
      | none => rfl
      | some t => simp

/-- A store call issued during a batch operation, tagged with the keys it
touches. -/
inductive Call where
  | getC (k : String)
  | putC (k : String)
  | copyC (src : String) (dst : String)
  | delManyC (ks : List String)
deriving DecidableEq

/-- The working-set keys a call has in flight (the copy is the in-flight
cycle of its source key; the batched delete touches every listed key). -/
def callKeys : Call → List String
  | .getC k => [k]
  | .putC k => [k]
  | .copyC src _ => [src]
  | .delManyC ks => ks

/-- A batch - store calls issued together and awaited together - is within
one key's cycle when every key it touches is one and the same key. -/
def batchOneKey (b : List Call) : Bool :=
  match (b.map callKeys).flatten with
  | [] => true
  | k :: rest => rest.all (· == k)

/-- The claim's property: at most one key's fetch/transform/write cycle in
flight at a time, i.e. every concurrent batch of the operation touches at
most one key. -/
def seqAcrossKeys (bs : List (List Call)) : Bool :=
  bs.all batchOneKey

/-- forEach, whole-object (src lines 237-258): one get at a time, each
chained after the previous key's callback - every batch is a single get. -/
def forEachBatches (keys : List String) : List (List Call) :=
  keys.map fun k => [.getC k]

/-- reduce (src lines 472-489): same chained one-get-at-a-time shape. -/
def reduceBatches (keys : List String) : List (List Call) :=
  keys.map fun k => [.getC k]

/-- map, whole-object, no target (src lines 342-363 with 398-417): per key
a get, then a put, then the next key - all batches are singletons. -/
def mapBatches (keys : List String) : List (List Call) :=
  (keys.map fun k => [[Call.getC k], [Call.putC k]]).flatten

/-- The filter scan phase (src lines 579-612): one chained get per key. -/
def filterScanBatches (keys : List String) : List (List Call) :=
  keys.map fun k => [.getC k]

/-- join (src lines 195-210): getPromises for EVERY key of the working set
are created eagerly in the forEach on lines 202-204 and only then awaited
together by Promise.all (line 205) - one batch holding all the gets. -/
def joinGetBatches (keys : List String) : List (List Call) :=
  [keys.map Call.getC]

/-- The filter finish phase _finish (src lines 614-629): with a target, the
copy promises for every kept key are created eagerly (lines 617-620) and
awaited together by Promise.all (line 621) - one batch of all the copies;
with no target, a single batched delete of the removed keys (line 625). -/
def filterFinishBatches (hasTarget : Bool) (tgtPfx : String)
    (keep remove : List String) : List (List Call) :=
  if hasTarget then [keep.map fun k => Call.copyC k (tgtPfx ++ getFileName k)]
  else [[Call.delManyC remove]]

/-- C9 counterexample: join over the two-key working set [a, b] issues both
gets in one concurrent batch, so two distinct keys are in flight at once,
refuting the claim that every batch operation, join included, is strictly
sequential across keys. -/
theorem c9_cx_join_concurrent :
    seqAcrossKeys (joinGetBatches ["a", "b"]) = false := by
  rfl

/-- C9 (amended): cross-key iteration is strictly sequential for forEach,
map, reduce and the scan phase of filter - every batch of concurrently
in-flight store calls touches a single key; but join issues the gets of all
keys of the working set concurrently, and filter with a target issues the
copies of all kept keys concurrently in its finish phase, so for any two
distinct keys those phases have more than one key in flight. -/
theorem flatten_map_getC (l : List String) :
    ((l.map Call.getC).map callKeys).flatten = l := by
  induction l with
  | nil => rfl
  | cons a t ih =>
    simp only [List.map_cons, List.flatten_cons, callKeys,
      List.singleton_append, ih]

theorem flatten_map_copyC (tgtPfx : String) (l : List String) :
    ((l.map (fun k => Call.copyC k (tgtPfx ++ getFileName k))).map
      callKeys).flatten = l := by
  induction l with
  | nil => rfl
  | cons a t ih =>
    simp only [List.map_cons, List.flatten_cons, callKeys,
      List.singleton_append, ih]

theorem all_beq_false (k1 k2 : String) (h : k1 ≠ k2) (rest : List String) :
    (k2 :: rest).all (· == k1) = false := by
  have hne : (k2 == k1) = false := beq_eq_false_iff_ne.mpr (Ne.symm h)
  simp [List.all_cons, hne]

theorem c9_cross_key (keys keep : List String) (k1 k2 : String)
    (h : k1 ≠ k2) (tgtPfx : String) :
    seqAcrossKeys (forEachBatches keys) = true
    ∧ seqAcrossKeys (reduceBatches keys) = true
    ∧ seqAcrossKeys (mapBatches keys) = true
    ∧ seqAcrossKeys (filterScanBatches keys) = true
    ∧ seqAcrossKeys (joinGetBatches (k1 :: k2 :: keys)) = false
    ∧ seqAcrossKeys (filterFinishBatches true tgtPfx (k1 :: k2 :: keep) [])
        = false := by
  refine ⟨?_, ?_, ?_, ?_, ?_, ?_⟩
  · exact List.all_eq_true.mpr fun b hb => by
      obtain ⟨k, _, rfl⟩ := List.mem_map.mp hb
      rfl
  · exact List.all_eq_true.mpr fun b hb => by
      obtain ⟨k, _, rfl⟩ := List.mem_map.mp hb
      rfl
  · exact List.all_eq_true.mpr fun b hb => by
      simp only [mapBatches, List.mem_flatten] at hb
      obtain ⟨l, hl, hbl⟩ := hb
      obtain ⟨k, _, rfl⟩ := List.mem_map.mp hl
      simp only [List.mem_cons, List.mem_singleton, List.not_mem_nil,
        or_false] at hbl
      rcases hbl with rfl | rfl
      · rfl
      · rfl
  · exact List.all_eq_true.mpr fun b hb => by
      obtain ⟨k, _, rfl⟩ := List.mem_map.mp hb
      rfl
  · simp only [seqAcrossKeys, joinGetBatches, List.all_cons, List.all_nil,
      Bool.and_true, batchOneKey, flatten_map_getC]
    exact all_beq_false k1 k2 h keys
  · simp only [seqAcrossKeys, filterFinishBatches, if_true, List.all_cons,
      List.all_nil, Bool.and_true, batchOneKey, flatten_map_copyC]
    exact all_beq_false k1 k2 h keep

/-- Witness for C9 at the keys a and b: the sequential operations stay
within one key per batch while join and targeted filter-finish do not. -/
theorem c9_cross_key_w :
    seqAcrossKeys (forEachBatches ["x"]) = true
    ∧ seqAcrossKeys (reduceBatches ["x"]) = true
    ∧ seqAcrossKeys (mapBatches ["x"]) = true
    ∧ seqAcrossKeys (filterScanBatches ["x"]) = true
    ∧ seqAcrossKeys (joinGetBatches ("a" :: "b" :: ["x"])) = false
    ∧ seqAcrossKeys (filterFinishBatches true "t/" ("a" :: "b" :: []) [])
        = false :=
  c9_cross_key ["x"] [] "a" "b" (by decide) "t/"

end S3L
